import Mathlib

/-!
# Sampling core of the profiling native extension

A shallow embedding of `ext/ddtrace_profiling_native_extension/profiling.c`
and the properties of its timer-driven sampling pipeline.

* Ruby `VALUE`s are the inductive type `Value`; a Ruby array held in a C
  local or global is an `RArray`, the list of its elements.
* The mutable state the extension reads and writes (the global
  `sampling_results`, the disposition of `SIGALRM`, the real-clock interval
  timer, the VM's postponed-job buffer) is the record `Process`, passed
  explicitly.
* What the extension only observes (the lock oracle, `Thread.list`, the
  frames of each thread, the accessors of the Ruby C API, the status the
  kernel gives `sigaction`, the contents of uninitialised C locals) is the
  record `Host`.
* A C function that may call `rb_fatal` returns an `Outcome`: it returned a
  value, it aborted the process, or it ran into undefined behaviour.
-/

namespace Profiling

/-! ## Ruby values -/

/-- A Ruby `VALUE`. Threads and raw profile frames are objects known only by
their handle. -/
inductive Value where
  | Qnil
  | Qtrue
  | Qfalse
  | fixnum (n : Int)
  | str (s : String)
  | obj (handle : Nat)
  | ary (elems : List Value)

/-- The elements of a Ruby array held in a C variable. -/
abbrev RArray := List Value

/-- The C API `rb_ary_new()`: a fresh empty array. -/
def rb_ary_new : RArray := []

/-- The C API `rb_ary_push(ary, item)`: `item` becomes the last element. -/
def rb_ary_push (a : RArray) (item : Value) : RArray := a ++ [item]

/-- The C API `rb_ary_new_from_args(3, a, b, c)`. -/
def rb_ary_new_from_args3 (a b c : Value) : Value := Value.ary [a, b, c]

/-- The C API `RARRAY_LEN(ary)`. -/
def RARRAY_LEN (a : RArray) : Nat := a.length

/-- The C API `RARRAY_AREF(ary, i)`; reading past the end is undefined. -/
def RARRAY_AREF (a : RArray) (i : Nat) : Option Value := a[i]?

/-- The C API `INT2FIX(i)`: the Fixnum holding the C `int` `i`. Every `int`
is in Fixnum range where `long` is wider than `int`. -/
def INT2FIX (i : Int) : Value := Value.fixnum i

/-- Source: `#define MAX_STACK_DEPTH 400`. -/
def MAX_STACK_DEPTH : Nat := 400

/-! ## Operating-system records -/

/-- A C function pointer, as far as this extension tells them apart. -/
inductive FnPtr where
  | null
  | handle_signal
  | job_callback
  | foreign (addr : Nat)
  deriving DecidableEq

/-- The C `struct timeval`. -/
structure timeval where
  tv_sec : Int
  tv_usec : Int
  deriving DecidableEq

/-- The C `struct itimerval`. -/
structure itimerval where
  it_interval : timeval
  it_value : timeval
  deriving DecidableEq

/-- The C `struct sigaction` as filled in by user code. POSIX lets the
storage of `sa_handler` and `sa_sigaction` overlap; the source writes
`sa_sigaction` last, so the value the kernel reads under `SA_SIGINFO` is the
same under either layout. -/
structure sigaction_t where
  sa_mask : List Int
  sa_handler : FnPtr
  sa_flags : Nat
  sa_sigaction : FnPtr
  deriving DecidableEq

/-- What the kernel records for one signal. -/
structure Disposition where
  handler : FnPtr
  mask : List Int
  flags : Nat
  deriving DecidableEq

/-- Linux value of `SIGALRM`. -/
def SIGALRM : Int := 14
/-- Linux value of `ITIMER_REAL`, the wall-clock timer. -/
def ITIMER_REAL : Int := 0
/-- Linux value of `ITIMER_VIRTUAL`, a CPU-time timer. -/
def ITIMER_VIRTUAL : Int := 1
/-- Linux value of `ITIMER_PROF`, a CPU-time timer. -/
def ITIMER_PROF : Int := 2
/-- Linux value of `SA_SIGINFO`. -/
def SA_SIGINFO : Nat := 0x4
/-- Linux value of `SA_RESTART`. -/
def SA_RESTART : Nat := 0x10000000

/-! ## State -/

/-- The mutable state the extension touches. -/
structure Process where
  /-- The C global `VALUE sampling_results`, bound to `$sampling_results`. -/
  sampling_results : RArray
  /-- The disposition of `SIGALRM`. -/
  sigalrm : Disposition
  /-- The setting of the `ITIMER_REAL` timer. -/
  itimer_real : itimerval
  /-- The functions pending in the VM's postponed-job buffer. -/
  postponed_jobs : List FnPtr

/-- What the extension observes of its surroundings at one moment. -/
structure Host where
  /-- The oracle `ruby_thread_has_gvl_p()`. -/
  ruby_thread_has_gvl_p : Bool
  /-- The result of `Thread.list`. -/
  thread_list : RArray
  /-- The function `thread_id_for` of `borrowed_from_ruby.c`. -/
  thread_id_for : Value → Value
  /-- The C API `rb_profile_frame_path`. -/
  rb_profile_frame_path : Value → Value
  /-- The C API `rb_profile_frame_full_label`. -/
  rb_profile_frame_full_label : Value → Value
  /-- The true stack of a thread: raw frame and line number, index 0 first. -/
  thread_stack : Value → List (Value × Int)
  /-- The status the kernel gives the `sigaction` call. -/
  sigaction_status : Int
  /-- The contents of the uninitialised local `VALUE frames[MAX_STACK_DEPTH]`. -/
  uninit_frames : Nat → Value
  /-- The contents of the uninitialised local `int lines[MAX_STACK_DEPTH]`. -/
  uninit_lines : Nat → Int
  /-- The contents of the uninitialised local `struct sigaction`. -/
  uninit_sigaction : sigaction_t
  /-- The contents of the uninitialised local `struct itimerval`. -/
  uninit_itimerval : itimerval

/-- The result of running a C function of the extension. -/
inductive Outcome (α : Type) where
  /-- The function returned `value`, leaving the process in state `after`. -/
  | returned (value : α) (after : Process)
  /-- The function called `rb_fatal(message)` in state `at_abort`. -/
  | fatal (message : String) (at_abort : Process)
  /-- The function read outside an array. -/
  | undefined

/-- Sequencing: the rest of a C function body runs only if the call returned. -/
def Outcome.bind {α β : Type} (o : Outcome α) (k : α → Process → Outcome β) : Outcome β :=
  match o with
  | Outcome.returned v p => k v p
  | Outcome.fatal m p => Outcome.fatal m p
  | Outcome.undefined => Outcome.undefined

/-- The process state an outcome carries, if any. -/
def Outcome.state {α : Type} : Outcome α → Option Process
  | Outcome.returned _ p => some p
  | Outcome.fatal _ p => some p
  | Outcome.undefined => none

/-! ## Stack Sampler -/

/-- Modelled from the spec: the Frame Walker
`borrowed_from_ruby_sources_rb_profile_frames(thread, start, limit, buff, lines)`
is defined in `borrowed_from_ruby.c`, which is not among the sources. It
hands back the frames at indices `[start, start + limit)` of the thread's
stack: it writes them to the front of `buff` and `lines` and returns how many
it wrote. -/
def borrowed_from_ruby_sources_rb_profile_frames (h : Host) (thread : Value)
    (start limit : Int) (buff : List Value) (lines : List Int) :
    Int × List Value × List Int :=
  let got := ((h.thread_stack thread).drop start.toNat).take limit.toNat
  ((got.length : Int),
    got.map Prod.fst ++ buff.drop got.length,
    got.map Prod.snd ++ lines.drop got.length)

/-- One element of a sample's stack:
`rb_ary_new_from_args(3, rb_profile_frame_path(f), rb_profile_frame_full_label(f), INT2FIX(l))`. -/
def frame_triple (h : Host) (f : Value) (l : Int) : Value :=
  rb_ary_new_from_args3 (h.rb_profile_frame_path f) (h.rb_profile_frame_full_label f) (INT2FIX l)

/-- The loop `for (int i = 0; i < frames_count; i++)` of `to_sample`, with
`remaining` iterations to go from index `i`; the counter stays below the
`int` `frames_count`, so it does not wrap. -/
def to_sample_loop (h : Host) (frames : List Value) (lines : List Int) :
    Nat → Nat → RArray → Option RArray
  | 0, _, result => some result
  | remaining + 1, i, result =>
    match frames[i]?, lines[i]? with
    | some f, some l =>
      to_sample_loop h frames lines remaining (i + 1) (rb_ary_push result (frame_triple h f l))
    | _, _ => none

/-- Source: `to_sample(int frames_count, VALUE* frames, int* lines)`. A
count that is not positive runs the loop zero times; `none` is a read past
the end of `frames` or `lines`. -/
def to_sample (h : Host) (frames_count : Int) (frames : List Value) (lines : List Int) :
    Option Value :=
  (to_sample_loop h frames lines frames_count.toNat 0 rb_ary_new).map Value.ary

/-- Source: `sample_thread(VALUE thread)`. -/
def sample_thread (h : Host) (thread : Value) : Option Value :=
  let frames : List Value := (List.range MAX_STACK_DEPTH).map h.uninit_frames
  let lines : List Int := (List.range MAX_STACK_DEPTH).map h.uninit_lines
  let (stack_depth, frames, lines) :=
    borrowed_from_ruby_sources_rb_profile_frames h thread 0 MAX_STACK_DEPTH frames lines
  match to_sample h stack_depth frames lines with
  | none => none
  | some stack =>
    let thread_id := h.thread_id_for thread
    some (rb_ary_new_from_args3 thread thread_id stack)

/-! ## Thread Sweep -/

/-- The loop `for (int i = 0; i < RARRAY_LEN(threads); i++)` of
`do_sample_threads`, with `remaining` iterations to go from index `i`. The
counter is a natural number: a process has far fewer than `2 ^ 31` threads,
so the C `int` does not wrap. -/
def do_sample_threads_loop (h : Host) (threads : RArray) :
    Nat → Nat → RArray → Option RArray
  | 0, _, samples => some samples
  | remaining + 1, i, samples =>
    match RARRAY_AREF threads i with
    | none => none
    | some thread =>
      match sample_thread h thread with
      | none => none
      | some result =>
        do_sample_threads_loop h threads remaining (i + 1) (rb_ary_push samples result)

/-- Source: `do_sample_threads()`. -/
def do_sample_threads (h : Host) (p : Process) : Outcome Value :=
  if !h.ruby_thread_has_gvl_p then
    Outcome.fatal "Expected to have GVL" p
  else
    let threads := h.thread_list
    let samples := rb_ary_new
    match do_sample_threads_loop h threads (RARRAY_LEN threads) 0 samples with
    | none => Outcome.undefined
    | some samples => Outcome.returned (Value.ary samples) p

/-- Source: `sample_threads(VALUE self)`. -/
def sample_threads (h : Host) (_self : Value) (p : Process) : Outcome Value :=
  do_sample_threads h p

/-- Source: `native_working_p(VALUE self)`. -/
def native_working_p (_self : Value) (p : Process) : Outcome Value :=
  Outcome.returned Value.Qtrue p

/-! ## Deferred job -/

/-- Source: `job_callback(void* _payload)`. The argument of `rb_ary_push` is
evaluated before the call is made. -/
def job_callback (h : Host) (p : Process) : Outcome Unit :=
  (do_sample_threads h p).bind fun sweep p1 =>
    Outcome.returned () { p1 with sampling_results := rb_ary_push p1.sampling_results sweep }

/-- The VM primitive `rb_postponed_job_register_one(flags, func, data)`: a
function already pending is not registered again (status 2); otherwise it is
added to the buffer (status 1). -/
def rb_postponed_job_register_one (_flags : Nat) (func : FnPtr) (p : Process) : Int × Process :=
  if func ∈ p.postponed_jobs then (2, p)
  else (1, { p with postponed_jobs := p.postponed_jobs ++ [func] })

/-- Source: `handle_signal(int _signal, siginfo_t *_info, void *_ucontext)`. -/
def handle_signal (_signal : Int) (p : Process) : Process :=
  (rb_postponed_job_register_one 0 FnPtr.job_callback p).2

/-- The VM runs the jobs taken from its buffer, in order; `count` is the
number of runs of `job_callback` so far. Functions of other extensions are
outside this model. -/
def run_postponed_jobs (h : Host) : List FnPtr → Nat → Process → Outcome Nat
  | [], count, p => Outcome.returned count p
  | f :: rest, count, p =>
    if f = FnPtr.job_callback then
      (job_callback h p).bind fun _ p1 => run_postponed_jobs h rest (count + 1) p1
    else
      run_postponed_jobs h rest count p

/-- The VM drains its postponed-job buffer at a safe point; the value is the
number of runs of `job_callback`. -/
def rb_postponed_job_flush (h : Host) (p : Process) : Outcome Nat :=
  run_postponed_jobs h p.postponed_jobs 0 { p with postponed_jobs := [] }

/-! ## Signal Timer Controller -/

/-- The system call `sigaction(signum, act, NULL)`: on success the kernel
records the handler the flags select, the mask and the flags. Only the
disposition of `SIGALRM` is tracked. -/
def sigaction (h : Host) (signum : Int) (act : sigaction_t) (p : Process) : Int × Process :=
  if h.sigaction_status = 0 then
    if signum = SIGALRM then
      (0, { p with sigalrm :=
        { handler := if act.sa_flags &&& SA_SIGINFO ≠ 0 then act.sa_sigaction else act.sa_handler
          mask := act.sa_mask
          flags := act.sa_flags } })
    else (0, p)
  else (h.sigaction_status, p)

/-- A `timeval` the kernel accepts. -/
def timeval_canonical (t : timeval) : Bool :=
  decide (0 ≤ t.tv_sec) && decide (0 ≤ t.tv_usec) && decide (t.tv_usec < 1000000)

/-- The system call `setitimer(which, new_value, NULL)`: it fails with
`EINVAL` on an unknown timer or a `timeval` that is not canonical, and
otherwise sets the timer. Only `ITIMER_REAL` is tracked. -/
def setitimer (which : Int) (new_value : itimerval) (p : Process) : Int × Process :=
  if which ≠ ITIMER_REAL ∧ which ≠ ITIMER_VIRTUAL ∧ which ≠ ITIMER_PROF then (-1, p)
  else if !(timeval_canonical new_value.it_interval && timeval_canonical new_value.it_value) then
    (-1, p)
  else if which = ITIMER_REAL then (0, { p with itimer_real := new_value })
  else (0, p)

/-- Source: `install_signal_handler(void)`. -/
def install_signal_handler (h : Host) (p : Process) : Outcome Unit :=
  let signal_handler_config := h.uninit_sigaction
  let signal_handler_config := { signal_handler_config with sa_mask := [] }
  let signal_handler_config := { signal_handler_config with sa_handler := FnPtr.null }
  let signal_handler_config := { signal_handler_config with sa_flags := SA_RESTART ||| SA_SIGINFO }
  let signal_handler_config := { signal_handler_config with sa_sigaction := FnPtr.handle_signal }
  let (status, p1) := sigaction h SIGALRM signal_handler_config p
  if status ≠ 0 then
    Outcome.fatal "Could not install signal handler" p1
  else
    Outcome.returned () p1

/-- Source: `start_timer(VALUE self)`. The status of `setitimer` is
discarded. -/
def start_timer (h : Host) (_self : Value) (p : Process) : Outcome Value :=
  (install_signal_handler h p).bind fun _ p1 =>
    let timer_config := h.uninit_itimerval
    let timer_config :=
      { timer_config with it_interval := { timer_config.it_interval with tv_sec := 1 } }
    let timer_config :=
      { timer_config with it_interval := { timer_config.it_interval with tv_usec := 0 } }
    let timer_config :=
      { timer_config with it_value := { timer_config.it_value with tv_sec := 1 } }
    let timer_config :=
      { timer_config with it_value := { timer_config.it_value with tv_usec := 0 } }
    let (_, p2) := setitimer ITIMER_REAL timer_config p1
    Outcome.returned Value.Qtrue p2

/-! ## The timer-fires / host-drains step relation -/

/-- One event in the life of the armed sampler. -/
inductive Step where
  /-- The interval timer expires and the kernel runs `handle_signal`. -/
  | timer_fires
  /-- The VM reaches a safe point, observed as `h`, and drains its buffer. -/
  | host_drains (h : Host)

/-- The effect of one event; the value is the number of runs of
`job_callback` it caused. -/
def step (p : Process) : Step → Outcome Nat
  | Step.timer_fires => Outcome.returned 0 (handle_signal SIGALRM p)
  | Step.host_drains h => rb_postponed_job_flush h p

/-- The effect of a sequence of events; `count` is the number of runs of
`job_callback` so far. -/
def run : List Step → Nat → Process → Outcome Nat
  | [], count, p => Outcome.returned count p
  | s :: rest, count, p => (step p s).bind fun k p1 => run rest (count + k) p1

/-- The number of timer expiries in a sequence of events. -/
def firings : List Step → Nat
  | [] => 0
  | Step.timer_fires :: rest => firings rest + 1
  | Step.host_drains _ :: rest => firings rest

/-- The deferred job run once at each of the given safe points, in order;
an abort ends the process. -/
def job_runs : List Host → Process → Outcome Unit
  | [], p => Outcome.returned () p
  | h :: rest, p => (job_callback h p).bind fun _ p1 => job_runs rest p1


/-- Source: the part of `Init_ddtrace_profiling_native_extension` that acts on
the state: `sampling_results = rb_ary_new()`. -/
def Init_ddtrace_profiling_native_extension (p : Process) : Process :=
  { p with sampling_results := rb_ary_new }

/-! ## What a sample holds -/

/-- The stack `sample_thread` puts in a sample. -/
def sampled_frames (h : Host) (thread : Value) : List Value :=
  ((h.thread_stack thread).take MAX_STACK_DEPTH).map fun fl => frame_triple h fl.1 fl.2

/-- The record `sample_thread` builds for a thread. -/
def sample_record (h : Host) (thread : Value) : Value :=
  Value.ary [thread, h.thread_id_for thread, Value.ary (sampled_frames h thread)]

/-! ## Concrete hosts and processes -/

/-- Two threads, with the stacks `[("a.rb","foo",10),("b.rb","bar",20),("c.rb","baz",30)]`
and `[("d.rb","qux",5)]`, observed with the lock held. -/
def scenario_host : Host where
  ruby_thread_has_gvl_p := true
  thread_list := [Value.obj 1, Value.obj 2]
  thread_id_for := fun t =>
    match t with
    | Value.obj n => Value.fixnum (7000 + n)
    | _ => Value.Qnil
  rb_profile_frame_path := fun f =>
    match f with
    | Value.obj 11 => Value.str "a.rb"
    | Value.obj 12 => Value.str "b.rb"
    | Value.obj 13 => Value.str "c.rb"
    | Value.obj 21 => Value.str "d.rb"
    | _ => Value.Qnil
  rb_profile_frame_full_label := fun f =>
    match f with
    | Value.obj 11 => Value.str "foo"
    | Value.obj 12 => Value.str "bar"
    | Value.obj 13 => Value.str "baz"
    | Value.obj 21 => Value.str "qux"
    | _ => Value.Qnil
  thread_stack := fun t =>
    match t with
    | Value.obj 1 => [(Value.obj 11, 10), (Value.obj 12, 20), (Value.obj 13, 30)]
    | Value.obj 2 => [(Value.obj 21, 5)]
    | _ => []
  sigaction_status := 0
  uninit_frames := fun i => Value.obj (9000 + i)
  uninit_lines := fun i => -1 - i
  uninit_sigaction :=
    { sa_mask := [2, 15], sa_handler := FnPtr.foreign 4096, sa_flags := 1,
      sa_sigaction := FnPtr.foreign 8192 }
  uninit_itimerval :=
    { it_interval := { tv_sec := -7, tv_usec := 123456789 },
      it_value := { tv_sec := 0, tv_usec := -1 } }

/-- A process right after the extension is loaded: empty store, default
disposition, timer disarmed, nothing pending. -/
def fresh_process : Process :=
  Init_ddtrace_profiling_native_extension
    { sampling_results := [Value.Qnil]
      sigalrm := { handler := FnPtr.null, mask := [], flags := 0 }
      itimer_real :=
        { it_interval := { tv_sec := 0, tv_usec := 0 }, it_value := { tv_sec := 0, tv_usec := 0 } }
      postponed_jobs := [] }

/-- A host with a single thread, whose stack is 450 frames deep. -/
def deep_host : Host :=
  { scenario_host with
    thread_list := [Value.obj 3]
    thread_stack := fun t =>
      match t with
      | Value.obj 3 => (List.range 450).map fun i => (Value.obj (100 + i), (i : Int) + 1)
      | _ => [] }

/-- The scenario host at a moment the caller does not hold the lock. -/
def unlocked_host : Host :=
  { scenario_host with ruby_thread_has_gvl_p := false }

/-- The scenario host when the kernel refuses to install the handler. -/
def refusing_host : Host :=
  { scenario_host with sigaction_status := -1 }

/-- The disposition `install_signal_handler` asks the kernel to record. -/
def sampler_disposition : Disposition :=
  { handler := FnPtr.handle_signal, mask := [], flags := SA_RESTART ||| SA_SIGINFO }

/-- The timer setting `start_timer` asks for: 1 s 0 us, both fields. -/
def one_second_timer : itimerval :=
  { it_interval := { tv_sec := 1, tv_usec := 0 }, it_value := { tv_sec := 1, tv_usec := 0 } }

/-- A process that has sampled before: one earlier sweep in the store, a
foreign handler on `SIGALRM`, a half-second timer, a registration pending. -/
def running_process : Process where
  sampling_results := [Value.ary [Value.ary [Value.obj 1, Value.fixnum 7001, Value.ary []]]]
  sigalrm := { handler := FnPtr.foreign 4096, mask := [2], flags := 0 }
  itimer_real :=
    { it_interval := { tv_sec := 0, tv_usec := 500000 },
      it_value := { tv_sec := 0, tv_usec := 250000 } }
  postponed_jobs := [FnPtr.job_callback]

/-! ## Closed forms of the two loops -/

theorem to_sample_loop_eq (h : Host) (frames : List Value) (lines : List Int) :
    ∀ (k i : Nat) (acc : RArray), i + k ≤ frames.length → i + k ≤ lines.length →
      to_sample_loop h frames lines k i acc
        = some (acc ++ (((frames.zip lines).drop i).take k).map fun fl => frame_triple h fl.1 fl.2) := by
  intro k
  induction k with
  | zero => intro i acc _ _; simp [to_sample_loop]
  | succ k ih =>
    intro i acc hf hl
    have hif : i < frames.length := by omega
    have hil : i < lines.length := by omega
    have hz : i < (frames.zip lines).length := by simp; omega
    rw [to_sample_loop, List.getElem?_eq_getElem hif, List.getElem?_eq_getElem hil]
    simp only
    rw [ih (i + 1) _ (by omega) (by omega), List.drop_eq_getElem_cons hz]
    simp [rb_ary_push]

theorem to_sample_eq (h : Host) (n : Nat) (frames : List Value) (lines : List Int)
    (hf : n ≤ frames.length) (hl : n ≤ lines.length) :
    to_sample h (n : Int) frames lines
      = some (Value.ary (((frames.take n).zip (lines.take n)).map fun fl => frame_triple h fl.1 fl.2)) := by
  unfold to_sample
  rw [Int.toNat_ofNat, to_sample_loop_eq h frames lines n 0 rb_ary_new (by omega) (by omega)]
  have hz : ((frames.zip lines).take n) = (frames.take n).zip (lines.take n) := by
    simp only [List.zip, List.take_zipWith]
  simp [rb_ary_new, hz]

theorem sample_thread_eq (h : Host) (thread : Value) :
    sample_thread h thread = some (sample_record h thread) := by
  have hlen : ((h.thread_stack thread).take MAX_STACK_DEPTH).length ≤ MAX_STACK_DEPTH := by
    simp
  simp only [sample_thread, borrowed_from_ruby_sources_rb_profile_frames, Int.toNat_ofNat,
    Int.toNat_zero, List.drop_zero]
  rw [to_sample_eq h _ _ _ (by simp) (by simp)]
  simp only [sample_record, sampled_frames, rb_ary_new_from_args3]
  have e1 : ∀ (X : List Value),
      List.take ((h.thread_stack thread).take MAX_STACK_DEPTH).length
        (((h.thread_stack thread).take MAX_STACK_DEPTH).map Prod.fst ++ X)
        = ((h.thread_stack thread).take MAX_STACK_DEPTH).map Prod.fst := by
    intro X; exact List.take_left' (by simp)
  have e2 : ∀ (X : List Int),
      List.take ((h.thread_stack thread).take MAX_STACK_DEPTH).length
        (((h.thread_stack thread).take MAX_STACK_DEPTH).map Prod.snd ++ X)
        = ((h.thread_stack thread).take MAX_STACK_DEPTH).map Prod.snd := by
    intro X; exact List.take_left' (by simp)
  rw [e1, e2, ← List.zip_of_prod rfl rfl]

theorem do_sample_threads_loop_eq (h : Host) (threads : RArray) :
    ∀ (k i : Nat) (acc : RArray), i + k ≤ threads.length →
      do_sample_threads_loop h threads k i acc
        = some (acc ++ ((threads.drop i).take k).map (sample_record h)) := by
  intro k
  induction k with
  | zero => intro i acc _; simp [do_sample_threads_loop]
  | succ k ih =>
    intro i acc hk
    have hi : i < threads.length := by omega
    rw [do_sample_threads_loop, RARRAY_AREF, List.getElem?_eq_getElem hi]
    simp only [sample_thread_eq]
    rw [ih (i + 1) _ (by omega), List.drop_eq_getElem_cons hi]
    simp only [rb_ary_push, List.take_succ_cons, List.map_cons, List.append_assoc,
      List.singleton_append]

theorem do_sample_threads_eq (h : Host) (p : Process) (hg : h.ruby_thread_has_gvl_p = true) :
    do_sample_threads h p
      = Outcome.returned (Value.ary (h.thread_list.map (sample_record h))) p := by
  have e := do_sample_threads_loop_eq h h.thread_list (RARRAY_LEN h.thread_list) 0 rb_ary_new
    (by simp [RARRAY_LEN])
  simp only [RARRAY_LEN, rb_ary_new, List.drop_zero, List.take_length, List.nil_append] at e
  simp [do_sample_threads, hg, e, RARRAY_LEN, rb_ary_new]

theorem do_sample_threads_no_gvl (h : Host) (p : Process) (hg : h.ruby_thread_has_gvl_p = false) :
    do_sample_threads h p = Outcome.fatal "Expected to have GVL" p := by
  simp [do_sample_threads, hg]


/-! ## Thread Sweep and Stack Sampler -/

/-- C1: with the lock held, `sample_threads` (that is `do_sample_threads`)
returns a sweep with exactly one record per thread of `Thread.list`, in the
list's order; record `i` is the triple of thread `i`, `thread_id_for` of it
and the frames `sample_thread` reads for it; an empty list gives an empty
sweep. -/
theorem sample_threads_one_record_per_thread (h : Host) (self : Value) (p : Process)
    (hg : h.ruby_thread_has_gvl_p = true) :
    ∃ sweep : List Value,
      sample_threads h self p = Outcome.returned (Value.ary sweep) p ∧
      do_sample_threads h p = Outcome.returned (Value.ary sweep) p ∧
      sweep.length = h.thread_list.length ∧
      (∀ (i : Nat) (thread : Value), h.thread_list[i]? = some thread →
        ∃ frames : List Value,
          frames = ((h.thread_stack thread).take MAX_STACK_DEPTH).map (fun fl =>
            Value.ary [h.rb_profile_frame_path fl.1, h.rb_profile_frame_full_label fl.1,
              Value.fixnum fl.2]) ∧
          sample_thread h thread
            = some (Value.ary [thread, h.thread_id_for thread, Value.ary frames]) ∧
          sweep[i]? = some (Value.ary [thread, h.thread_id_for thread, Value.ary frames])) ∧
      (h.thread_list.length = 0 → sweep = []) := by
  refine ⟨h.thread_list.map (sample_record h), ?_, do_sample_threads_eq h p hg, by simp, ?_, ?_⟩
  · exact do_sample_threads_eq h p hg
  · intro i thread hi
    refine ⟨sampled_frames h thread, rfl, sample_thread_eq h thread, ?_⟩
    simp [List.getElem?_map, hi, sample_record]
  · intro h0
    simp [List.length_eq_zero.mp h0]

theorem sample_threads_one_record_per_thread_witness :
    scenario_host.ruby_thread_has_gvl_p = true ∧
    ∃ sweep : List Value,
      sample_threads scenario_host Value.Qnil fresh_process
        = Outcome.returned (Value.ary sweep) fresh_process ∧
      do_sample_threads scenario_host fresh_process
        = Outcome.returned (Value.ary sweep) fresh_process ∧
      sweep.length = scenario_host.thread_list.length ∧
      (∀ (i : Nat) (thread : Value), scenario_host.thread_list[i]? = some thread →
        ∃ frames : List Value,
          frames = ((scenario_host.thread_stack thread).take MAX_STACK_DEPTH).map (fun fl =>
            Value.ary [scenario_host.rb_profile_frame_path fl.1,
              scenario_host.rb_profile_frame_full_label fl.1, Value.fixnum fl.2]) ∧
          sample_thread scenario_host thread
            = some (Value.ary [thread, scenario_host.thread_id_for thread, Value.ary frames]) ∧
          sweep[i]? = some (Value.ary [thread, scenario_host.thread_id_for thread, Value.ary frames])) ∧
      (scenario_host.thread_list.length = 0 → sweep = []) :=
  ⟨rfl, sample_threads_one_record_per_thread scenario_host Value.Qnil fresh_process rfl⟩

/-- C2: `sample_threads` aborts the process exactly when the caller does not
hold the lock; without the lock it returns no value, with the lock it returns
a sweep, whatever the threads and their stacks are. -/
theorem sample_threads_fatal_iff_no_gvl (h : Host) (self : Value) (p : Process) :
    ((∃ m q, sample_threads h self p = Outcome.fatal m q) ↔ h.ruby_thread_has_gvl_p = false) ∧
    (h.ruby_thread_has_gvl_p = false →
      sample_threads h self p = Outcome.fatal "Expected to have GVL" p ∧
      ∀ v q, sample_threads h self p ≠ Outcome.returned v q) ∧
    (h.ruby_thread_has_gvl_p = true →
      (∃ sweep : List Value, sample_threads h self p = Outcome.returned (Value.ary sweep) p) ∧
      ∀ m q, sample_threads h self p ≠ Outcome.fatal m q) := by
  cases hg : h.ruby_thread_has_gvl_p with
  | false =>
    have e : sample_threads h self p = Outcome.fatal "Expected to have GVL" p :=
      do_sample_threads_no_gvl h p hg
    simp [e]
  | true =>
    have e : sample_threads h self p
        = Outcome.returned (Value.ary (h.thread_list.map (sample_record h))) p :=
      do_sample_threads_eq h p hg
    simp [e]

theorem sample_threads_fatal_iff_no_gvl_witness :
    unlocked_host.ruby_thread_has_gvl_p = false ∧
    sample_threads unlocked_host Value.Qnil fresh_process
      = Outcome.fatal "Expected to have GVL" fresh_process ∧
    scenario_host.ruby_thread_has_gvl_p = true ∧
    ∃ sweep : List Value,
      sample_threads scenario_host Value.Qnil fresh_process
        = Outcome.returned (Value.ary sweep) fresh_process :=
  ⟨rfl,
    ((sample_threads_fatal_iff_no_gvl unlocked_host Value.Qnil fresh_process).2.1 rfl).1,
    rfl,
    ((sample_threads_fatal_iff_no_gvl scenario_host Value.Qnil fresh_process).2.2 rfl).1⟩

/-- C3: for a thread whose true stack has `d` frames, `sample_thread` yields
the first `min d MAX_STACK_DEPTH` frames of that stack, in the walker's
order, with `MAX_STACK_DEPTH = 400`: never more than 400 frames, an empty
sequence (not an error) for `d = 0`, and the frames at indices 0..399 for
`d = 450`. -/
theorem sample_thread_truncates_at_max_depth (h : Host) (thread : Value) :
    ∃ frames : List Value,
      sample_thread h thread
        = some (Value.ary [thread, h.thread_id_for thread, Value.ary frames]) ∧
      MAX_STACK_DEPTH = 400 ∧
      frames.length = min (h.thread_stack thread).length MAX_STACK_DEPTH ∧
      frames = ((h.thread_stack thread).take (min (h.thread_stack thread).length 400)).map
        (fun fl => Value.ary [h.rb_profile_frame_path fl.1, h.rb_profile_frame_full_label fl.1,
          Value.fixnum fl.2]) ∧
      frames.length ≤ 400 ∧
      ((h.thread_stack thread).length = 0 → frames = []) ∧
      ((h.thread_stack thread).length = 450 →
        frames.length = 400 ∧
        ∀ i : Nat, i < 400 →
          ∃ f l, (h.thread_stack thread)[i]? = some (f, l) ∧
            frames[i]? = some (Value.ary [h.rb_profile_frame_path f,
              h.rb_profile_frame_full_label f, Value.fixnum l])) := by
  refine ⟨sampled_frames h thread, sample_thread_eq h thread, rfl, ?_, ?_, ?_, ?_, ?_⟩
  · simp [sampled_frames, Nat.min_comm]
  · simp only [sampled_frames, MAX_STACK_DEPTH, frame_triple, rb_ary_new_from_args3, INT2FIX]
    congr 1
    rw [List.take_eq_take]
    omega
  · simp [sampled_frames, MAX_STACK_DEPTH]
  · intro h0
    simp [sampled_frames, List.length_eq_zero.mp h0]
  · intro h450
    refine ⟨by simp [sampled_frames, MAX_STACK_DEPTH, h450], ?_⟩
    intro i hi
    have hlt : i < (h.thread_stack thread).length := by omega
    refine ⟨((h.thread_stack thread)[i]).1, ((h.thread_stack thread)[i]).2, ?_, ?_⟩
    · simp [List.getElem?_eq_getElem hlt]
    · simp [sampled_frames, MAX_STACK_DEPTH, List.getElem?_map, List.getElem?_take, hi,
        List.getElem?_eq_getElem hlt, frame_triple, rb_ary_new_from_args3, INT2FIX]

theorem sample_thread_truncates_at_max_depth_witness :
    (deep_host.thread_stack (Value.obj 3)).length = 450 ∧
    ∃ frames : List Value,
      sample_thread deep_host (Value.obj 3)
        = some (Value.ary [Value.obj 3, Value.fixnum 7003, Value.ary frames]) ∧
      frames.length = 400 ∧
      frames[0]? = some (Value.ary [Value.Qnil, Value.Qnil, Value.fixnum 1]) ∧
      frames[399]? = some (Value.ary [Value.Qnil, Value.Qnil, Value.fixnum 400]) := by
  have hd : (deep_host.thread_stack (Value.obj 3)).length = 450 := by
    simp [deep_host]
  obtain ⟨frames, h1, _, _, _, _, _, h450⟩ :=
    sample_thread_truncates_at_max_depth deep_host (Value.obj 3)
  obtain ⟨hlen, hidx⟩ := h450 hd
  refine ⟨hd, frames, h1, hlen, ?_, ?_⟩
  · obtain ⟨f, l, hs, hf⟩ := hidx 0 (by decide)
    have : f = Value.obj 100 ∧ l = 1 := by
      simp [deep_host] at hs
      exact ⟨hs.1.symm, hs.2.symm⟩
    rw [hf, this.1, this.2]; rfl
  · obtain ⟨f, l, hs, hf⟩ := hidx 399 (by decide)
    have : f = Value.obj 499 ∧ l = 400 := by
      simp [deep_host, List.getElem?_map, List.getElem?_range] at hs
      exact ⟨hs.1.symm, hs.2.symm⟩
    rw [hf, this.1, this.2]; rfl

/-- C4: for a count `frames_count ≥ 0` and arrays `frames`, `lines` at least
that long, `to_sample` returns exactly `frames_count` triples, the `i`-th
being (path of `frames[i]`, full label of `frames[i]`, `lines[i]`), in order
and with the line number unchanged; and so for two threads with the stacks
`[("a.rb","foo",10),("b.rb","bar",20),("c.rb","baz",30)]` and
`[("d.rb","qux",5)]`, `sample_threads` returns two samples holding exactly
these frames, in order, each with its thread and the thread's identity. -/
theorem to_sample_triples_in_order (h : Host) (frames_count : Int) (frames : List Value)
    (lines : List Int) (h0 : 0 ≤ frames_count) (hf : frames_count ≤ frames.length)
    (hl : frames_count ≤ lines.length) :
    (∃ out : List Value,
      to_sample h frames_count frames lines = some (Value.ary out) ∧
      (out.length : Int) = frames_count ∧
      ∀ i : Nat, (i : Int) < frames_count →
        ∃ f l, frames[i]? = some f ∧ lines[i]? = some l ∧
          out[i]? = some (Value.ary [h.rb_profile_frame_path f,
            h.rb_profile_frame_full_label f, Value.fixnum l])) ∧
    (∀ (hs : Host) (self : Value) (p : Process) (t1 t2 f1 f2 f3 f4 : Value),
      hs.ruby_thread_has_gvl_p = true →
      hs.thread_list = [t1, t2] →
      hs.thread_stack t1 = [(f1, 10), (f2, 20), (f3, 30)] →
      hs.thread_stack t2 = [(f4, 5)] →
      hs.rb_profile_frame_path f1 = Value.str "a.rb" →
      hs.rb_profile_frame_full_label f1 = Value.str "foo" →
      hs.rb_profile_frame_path f2 = Value.str "b.rb" →
      hs.rb_profile_frame_full_label f2 = Value.str "bar" →
      hs.rb_profile_frame_path f3 = Value.str "c.rb" →
      hs.rb_profile_frame_full_label f3 = Value.str "baz" →
      hs.rb_profile_frame_path f4 = Value.str "d.rb" →
      hs.rb_profile_frame_full_label f4 = Value.str "qux" →
      sample_threads hs self p = Outcome.returned (Value.ary [
        Value.ary [t1, hs.thread_id_for t1, Value.ary [
          Value.ary [Value.str "a.rb", Value.str "foo", Value.fixnum 10],
          Value.ary [Value.str "b.rb", Value.str "bar", Value.fixnum 20],
          Value.ary [Value.str "c.rb", Value.str "baz", Value.fixnum 30]]],
        Value.ary [t2, hs.thread_id_for t2, Value.ary [
          Value.ary [Value.str "d.rb", Value.str "qux", Value.fixnum 5]]]]) p) := by
  constructor
  · obtain ⟨n, rfl⟩ := Int.eq_ofNat_of_zero_le h0
    have hf1 : n ≤ frames.length := by exact_mod_cast hf
    have hl1 : n ≤ lines.length := by exact_mod_cast hl
    refine ⟨_, to_sample_eq h n frames lines hf1 hl1, ?_, ?_⟩
    · simp [hf1, hl1]
    · intro i hi
      have hin : i < n := by exact_mod_cast hi
      have hif : i < frames.length := by omega
      have hil : i < lines.length := by omega
      refine ⟨frames[i], lines[i], List.getElem?_eq_getElem hif, List.getElem?_eq_getElem hil, ?_⟩
      have hz : i < ((frames.take n).zip (lines.take n)).length := by
        simp [hf1, hl1, hin]
      rw [List.getElem?_map, List.getElem?_eq_getElem hz]
      simp [frame_triple, rb_ary_new_from_args3, INT2FIX]
  · intro hs self p t1 t2 f1 f2 f3 f4 hg hthreads hs1 hs2 p1 l1 p2 l2 p3 l3 p4 l4
    have e : sample_threads hs self p
        = Outcome.returned (Value.ary (hs.thread_list.map (sample_record hs))) p :=
      do_sample_threads_eq hs p hg
    rw [e, hthreads]
    simp [sample_record, sampled_frames, MAX_STACK_DEPTH, hs1, hs2, frame_triple,
      rb_ary_new_from_args3, INT2FIX, p1, l1, p2, l2, p3, l3, p4, l4]

theorem to_sample_triples_in_order_witness :
    (∃ out : List Value,
      to_sample scenario_host 2 [Value.obj 11, Value.obj 21, Value.obj 13] [10, 5] = some (Value.ary out) ∧
      (out.length : Int) = 2 ∧
      ∀ i : Nat, (i : Int) < 2 →
        ∃ f l, [Value.obj 11, Value.obj 21, Value.obj 13][i]? = some f ∧
          ([10, 5] : List Int)[i]? = some l ∧
          out[i]? = some (Value.ary [scenario_host.rb_profile_frame_path f,
            scenario_host.rb_profile_frame_full_label f, Value.fixnum l])) ∧
    sample_threads scenario_host Value.Qnil fresh_process = Outcome.returned (Value.ary [
      Value.ary [Value.obj 1, Value.fixnum 7001, Value.ary [
        Value.ary [Value.str "a.rb", Value.str "foo", Value.fixnum 10],
        Value.ary [Value.str "b.rb", Value.str "bar", Value.fixnum 20],
        Value.ary [Value.str "c.rb", Value.str "baz", Value.fixnum 30]]],
      Value.ary [Value.obj 2, Value.fixnum 7002, Value.ary [
        Value.ary [Value.str "d.rb", Value.str "qux", Value.fixnum 5]]]]) fresh_process :=
  have key := to_sample_triples_in_order scenario_host 2
    [Value.obj 11, Value.obj 21, Value.obj 13] [10, 5] (by decide) (by decide) (by decide)
  ⟨key.1, key.2 scenario_host Value.Qnil fresh_process (Value.obj 1) (Value.obj 2) (Value.obj 11)
    (Value.obj 12) (Value.obj 13) (Value.obj 21) rfl rfl rfl rfl rfl rfl rfl rfl rfl rfl rfl rfl⟩

/-! ## The deferred job -/

theorem job_callback_eq (h : Host) (p : Process) (hg : h.ruby_thread_has_gvl_p = true) :
    job_callback h p = Outcome.returned ()
      { p with sampling_results :=
          p.sampling_results ++ [Value.ary (h.thread_list.map (sample_record h))] } := by
  simp [job_callback, do_sample_threads_eq h p hg, Outcome.bind, rb_ary_push]

theorem job_callback_no_gvl (h : Host) (p : Process) (hg : h.ruby_thread_has_gvl_p = false) :
    job_callback h p = Outcome.fatal "Expected to have GVL" p := by
  simp [job_callback, do_sample_threads_no_gvl h p hg, Outcome.bind]

theorem job_runs_extends (hs : List Host) :
    ∀ p : Process, ∃ q : Process, ∃ added : List Value,
      (job_runs hs p).state = some q ∧
      q.sampling_results = p.sampling_results ++ added ∧
      ((∀ h ∈ hs, h.ruby_thread_has_gvl_p = true) →
        job_runs hs p = Outcome.returned () q ∧ added.length = hs.length) := by
  induction hs with
  | nil => intro p; exact ⟨p, [], rfl, by simp, fun _ => ⟨rfl, rfl⟩⟩
  | cons h rest ih =>
    intro p
    cases hg : h.ruby_thread_has_gvl_p with
    | false =>
      refine ⟨p, [], ?_, by simp, ?_⟩
      · simp [job_runs, job_callback_no_gvl h p hg, Outcome.bind, Outcome.state]
      · intro hall
        have := hall h (List.mem_cons_self h rest)
        simp [hg] at this
    | true =>
      obtain ⟨q, added, hq, hstore, hall⟩ := ih
        { p with sampling_results :=
            p.sampling_results ++ [Value.ary (h.thread_list.map (sample_record h))] }
      refine ⟨q, Value.ary (h.thread_list.map (sample_record h)) :: added, ?_, ?_, ?_⟩
      · simpa [job_runs, job_callback_eq h p hg, Outcome.bind] using hq
      · simpa using hstore
      · intro hyp
        obtain ⟨hr, hlen⟩ := hall (fun x hx => hyp x (List.mem_cons_of_mem h hx))
        exact ⟨by simpa [job_runs, job_callback_eq h p hg, Outcome.bind] using hr, by simp [hlen]⟩

/-- C5: with the lock held, one run of the deferred job `job_callback`
leaves the store equal to the old store with exactly one element appended,
the sweep `do_sample_threads` returns at that moment; the length grows by
one, every earlier entry keeps its position and value, and over any sequence
of job runs the store only grows. -/
theorem job_callback_appends_one_sweep (h : Host) (p : Process)
    (hg : h.ruby_thread_has_gvl_p = true) :
    (∃ sweep : Value,
      do_sample_threads h p = Outcome.returned sweep p ∧
      ∃ q : Process,
        job_callback h p = Outcome.returned () q ∧
        q = { p with sampling_results := p.sampling_results ++ [sweep] } ∧
        q.sampling_results.length = p.sampling_results.length + 1 ∧
        ∀ i : Nat, i < p.sampling_results.length →
          q.sampling_results[i]? = p.sampling_results[i]?) ∧
    (∀ (moments : List Host) (p0 : Process),
      ∃ q : Process,
        (job_runs moments p0).state = some q ∧
        p0.sampling_results.length ≤ q.sampling_results.length ∧
        q.sampling_results.take p0.sampling_results.length = p0.sampling_results ∧
        ((∀ m ∈ moments, m.ruby_thread_has_gvl_p = true) →
          job_runs moments p0 = Outcome.returned () q ∧
          q.sampling_results.length = p0.sampling_results.length + moments.length)) := by
  constructor
  · refine ⟨_, do_sample_threads_eq h p hg, _, job_callback_eq h p hg, rfl, by simp, ?_⟩
    intro i hi
    simp [List.getElem?_append_left hi]
  · intro moments p0
    obtain ⟨q, added, hq, hstore, hall⟩ := job_runs_extends moments p0
    refine ⟨q, hq, by simp [hstore], by simp [hstore], ?_⟩
    intro hyp
    obtain ⟨hr, hlen⟩ := hall hyp
    exact ⟨hr, by simp [hstore, hlen]⟩

theorem job_callback_appends_one_sweep_witness :
    scenario_host.ruby_thread_has_gvl_p = true ∧
    ∃ sweep : Value,
      do_sample_threads scenario_host running_process = Outcome.returned sweep running_process ∧
      ∃ q : Process,
        job_callback scenario_host running_process = Outcome.returned () q ∧
        q = { running_process with
              sampling_results := running_process.sampling_results ++ [sweep] } ∧
        q.sampling_results.length = running_process.sampling_results.length + 1 ∧
        ∀ i : Nat, i < running_process.sampling_results.length →
          q.sampling_results[i]? = running_process.sampling_results[i]? :=
  ⟨rfl, (job_callback_appends_one_sweep scenario_host running_process rfl).1⟩

/-- C10: the deferred job is atomic on failure: run without the lock,
`job_callback` aborts the process and the store is exactly what it was; no
empty or partial sweep is appended, the lock check failing before the
append. -/
theorem job_callback_without_gvl_keeps_store (h : Host) (p : Process)
    (hg : h.ruby_thread_has_gvl_p = false) :
    job_callback h p = Outcome.fatal "Expected to have GVL" p ∧
    do_sample_threads h p = Outcome.fatal "Expected to have GVL" p ∧
    (∀ q : Process, (job_callback h p).state = some q →
      q.sampling_results = p.sampling_results) ∧
    (∀ q : Process, job_callback h p ≠ Outcome.returned () q) := by
  have e := job_callback_no_gvl h p hg
  refine ⟨e, do_sample_threads_no_gvl h p hg, ?_, ?_⟩
  · intro q hq
    rw [e] at hq
    simp only [Outcome.state, Option.some.injEq] at hq
    rw [← hq]
  · intro q hq
    rw [e] at hq
    cases hq

theorem job_callback_without_gvl_keeps_store_witness :
    unlocked_host.ruby_thread_has_gvl_p = false ∧
    job_callback unlocked_host fresh_process
      = Outcome.fatal "Expected to have GVL" fresh_process :=
  ⟨rfl, (job_callback_without_gvl_keeps_store unlocked_host fresh_process rfl).1⟩

/-! ## The Signal Timer Controller -/

theorem install_signal_handler_ok (h : Host) (p : Process) (hs : h.sigaction_status = 0) :
    install_signal_handler h p = Outcome.returned () { p with sigalrm := sampler_disposition } := by
  simp [install_signal_handler, sigaction, hs, sampler_disposition, SA_RESTART, SA_SIGINFO]

theorem install_signal_handler_fail (h : Host) (p : Process) (hs : h.sigaction_status ≠ 0) :
    install_signal_handler h p = Outcome.fatal "Could not install signal handler" p := by
  simp [install_signal_handler, sigaction, hs]

theorem start_timer_ok (h : Host) (self : Value) (p : Process) (hs : h.sigaction_status = 0) :
    start_timer h self p = Outcome.returned Value.Qtrue
      { p with sigalrm := sampler_disposition, itimer_real := one_second_timer } := by
  simp [start_timer, install_signal_handler_ok h p hs, Outcome.bind, setitimer, ITIMER_REAL,
    timeval_canonical, one_second_timer]

theorem start_timer_fail (h : Host) (self : Value) (p : Process) (hs : h.sigaction_status ≠ 0) :
    start_timer h self p = Outcome.fatal "Could not install signal handler" p := by
  simp [start_timer, install_signal_handler_fail h p hs, Outcome.bind]

/-- C6: whenever `start_timer` returns, it returns true, the handler of
`SIGALRM` is `handle_signal`, and the real-clock timer `ITIMER_REAL` is set
to an initial delay of exactly 1 s 0 us and a repeat interval of exactly
1 s 0 us, whatever was installed before; a second call leaves the same
configuration as the first. It does return when the handler is installed. -/
theorem start_timer_installs_handler_and_timer (h : Host) (self : Value) (p : Process) :
    (h.sigaction_status = 0 → ∃ q, start_timer h self p = Outcome.returned Value.Qtrue q) ∧
    (∀ (v : Value) (q : Process), start_timer h self p = Outcome.returned v q →
      v = Value.Qtrue ∧
      q.sigalrm.handler = FnPtr.handle_signal ∧
      q.sigalrm.mask = [] ∧
      q.sigalrm.flags = SA_RESTART ||| SA_SIGINFO ∧
      q.itimer_real.it_value = { tv_sec := 1, tv_usec := 0 } ∧
      q.itimer_real.it_interval = { tv_sec := 1, tv_usec := 0 } ∧
      q.sampling_results = p.sampling_results ∧
      q.postponed_jobs = p.postponed_jobs ∧
      ∀ (h2 : Host) (self2 v2 : Value) (q2 : Process),
        start_timer h2 self2 q = Outcome.returned v2 q2 → v2 = Value.Qtrue ∧ q2 = q) := by
  constructor
  · intro hs
    exact ⟨_, start_timer_ok h self p hs⟩
  · intro v q hret
    by_cases hs : h.sigaction_status = 0
    · rw [start_timer_ok h self p hs] at hret
      injection hret with hv hq
      subst hv hq
      refine ⟨rfl, rfl, rfl, rfl, rfl, rfl, rfl, rfl, ?_⟩
      intro h2 self2 v2 q2 hret2
      by_cases hs2 : h2.sigaction_status = 0
      · rw [start_timer_ok h2 self2 _ hs2] at hret2
        injection hret2 with hv2 hq2
        exact ⟨hv2.symm, hq2.symm⟩
      · rw [start_timer_fail h2 self2 _ hs2] at hret2
        cases hret2
    · rw [start_timer_fail h self p hs] at hret
      cases hret

theorem start_timer_installs_handler_and_timer_witness :
    scenario_host.sigaction_status = 0 ∧
    start_timer scenario_host Value.Qnil running_process = Outcome.returned Value.Qtrue
      { running_process with sigalrm := sampler_disposition, itimer_real := one_second_timer } ∧
    ∃ q, start_timer scenario_host Value.Qnil running_process = Outcome.returned Value.Qtrue q ∧
      q.sigalrm.handler = FnPtr.handle_signal ∧
      q.itimer_real.it_value = { tv_sec := 1, tv_usec := 0 } ∧
      q.itimer_real.it_interval = { tv_sec := 1, tv_usec := 0 } := by
  have key := start_timer_installs_handler_and_timer scenario_host Value.Qnil running_process
  obtain ⟨q, hq⟩ := key.1 rfl
  obtain ⟨_, hh, _, _, hv, hi, _⟩ := key.2 Value.Qtrue q hq
  exact ⟨rfl, start_timer_ok scenario_host Value.Qnil running_process rfl, q, hq, hh, hv, hi⟩

/-- C7: `start_timer` aborts the process exactly when installing the
`SIGALRM` handler fails, that is when `sigaction` returns non-zero; it then
returns no value and the interval timer is left as it was, the installation
being attempted before the timer is configured. -/
theorem start_timer_fatal_iff_sigaction_fails (h : Host) (self : Value) (p : Process) :
    ((∃ m q, start_timer h self p = Outcome.fatal m q) ↔ h.sigaction_status ≠ 0) ∧
    (∀ act : sigaction_t, (sigaction h SIGALRM act p).1 ≠ 0 ↔ h.sigaction_status ≠ 0) ∧
    (h.sigaction_status ≠ 0 →
      install_signal_handler h p = Outcome.fatal "Could not install signal handler" p ∧
      start_timer h self p = Outcome.fatal "Could not install signal handler" p ∧
      (∀ v q, start_timer h self p ≠ Outcome.returned v q) ∧
      ∀ q, (start_timer h self p).state = some q →
        q.itimer_real = p.itimer_real ∧ q.sigalrm = p.sigalrm) := by
  refine ⟨?_, ?_, ?_⟩
  · by_cases hs : h.sigaction_status = 0
    · simp [start_timer_ok h self p hs, hs]
    · simp [start_timer_fail h self p hs, hs]
  · intro act
    by_cases hs : h.sigaction_status = 0
    · simp [sigaction, hs, SIGALRM]
    · simp [sigaction, hs]
  · intro hs
    have e := start_timer_fail h self p hs
    refine ⟨install_signal_handler_fail h p hs, e, ?_, ?_⟩
    · intro v q hq
      rw [e] at hq
      cases hq
    · intro q hq
      rw [e] at hq
      simp only [Outcome.state, Option.some.injEq] at hq
      subst hq
      exact ⟨rfl, rfl⟩

theorem start_timer_fatal_iff_sigaction_fails_witness :
    refusing_host.sigaction_status ≠ 0 ∧
    start_timer refusing_host Value.Qnil fresh_process
      = Outcome.fatal "Could not install signal handler" fresh_process ∧
    ∀ q, (start_timer refusing_host Value.Qnil fresh_process).state = some q →
      q.itimer_real = fresh_process.itimer_real ∧ q.sigalrm = fresh_process.sigalrm :=
  have hne : refusing_host.sigaction_status ≠ 0 := by decide
  have key := (start_timer_fatal_iff_sigaction_fails refusing_host Value.Qnil fresh_process).2.2 hne
  ⟨hne, key.2.1, key.2.2.2⟩

/-! ## Who writes the store -/

/-- C8: the store is mutated only by the deferred job: `native_working_p`
(always true), `sample_threads`, `start_timer` and the signal handler
`handle_signal` each leave the store exactly as it was, whether they return
or abort; an on-demand `sample_threads` returns its sweep without appending
it. -/
theorem store_untouched_outside_the_job (h : Host) (self : Value) (signal : Int)
    (p : Process) :
    native_working_p self p = Outcome.returned Value.Qtrue p ∧
    (∃ q, (sample_threads h self p).state = some q ∧ q.sampling_results = p.sampling_results) ∧
    (h.ruby_thread_has_gvl_p = true →
      ∃ sweep q, sample_threads h self p = Outcome.returned sweep q ∧
        q.sampling_results = p.sampling_results) ∧
    (∃ q, (start_timer h self p).state = some q ∧ q.sampling_results = p.sampling_results) ∧
    (handle_signal signal p).sampling_results = p.sampling_results := by
  refine ⟨rfl, ?_, ?_, ?_, ?_⟩
  · cases hg : h.ruby_thread_has_gvl_p with
    | false =>
      have e : sample_threads h self p = Outcome.fatal "Expected to have GVL" p :=
        do_sample_threads_no_gvl h p hg
      exact ⟨p, by rw [e]; rfl, rfl⟩
    | true =>
      have e : sample_threads h self p
          = Outcome.returned (Value.ary (h.thread_list.map (sample_record h))) p :=
        do_sample_threads_eq h p hg
      exact ⟨p, by rw [e]; rfl, rfl⟩
  · intro hg
    exact ⟨_, p, do_sample_threads_eq h p hg, rfl⟩
  · by_cases hs : h.sigaction_status = 0
    · exact ⟨{ p with sigalrm := sampler_disposition, itimer_real := one_second_timer },
        by rw [start_timer_ok h self p hs]; rfl, rfl⟩
    · exact ⟨p, by rw [start_timer_fail h self p hs]; rfl, rfl⟩
  · unfold handle_signal rb_postponed_job_register_one
    split <;> rfl

theorem store_untouched_outside_the_job_witness :
    scenario_host.ruby_thread_has_gvl_p = true ∧
    ∃ sweep q, sample_threads scenario_host Value.Qnil running_process = Outcome.returned sweep q ∧
      q.sampling_results = running_process.sampling_results :=
  ⟨rfl, (store_untouched_outside_the_job scenario_host Value.Qnil 14 running_process).2.2.1 rfl⟩

/-! ## Timer firings and drains -/

theorem handle_signal_eq (signal : Int) (p : Process) :
    handle_signal signal p = { p with postponed_jobs :=
      if FnPtr.job_callback ∈ p.postponed_jobs then p.postponed_jobs
      else p.postponed_jobs ++ [FnPtr.job_callback] } := by
  unfold handle_signal rb_postponed_job_register_one
  split <;> simp [*]

theorem flush_nothing_pending (h : Host) (p : Process) (hp : p.postponed_jobs = []) :
    rb_postponed_job_flush h p = Outcome.returned 0 p := by
  cases p
  simp only at hp
  subst hp
  rfl

theorem flush_one_pending (h : Host) (p : Process) (hg : h.ruby_thread_has_gvl_p = true)
    (hp : p.postponed_jobs = [FnPtr.job_callback]) :
    rb_postponed_job_flush h p = Outcome.returned 1
      { p with
        sampling_results :=
          p.sampling_results ++ [Value.ary (h.thread_list.map (sample_record h))]
        postponed_jobs := [] } := by
  simp [rb_postponed_job_flush, hp, run_postponed_jobs, job_callback_eq h _ hg, Outcome.bind]

theorem run_append (a b : List Step) :
    ∀ (count : Nat) (p : Process),
      run (a ++ b) count p = (run a count p).bind fun c q => run b c q := by
  induction a with
  | nil => intro count p; rfl
  | cons s rest ih =>
    intro count p
    simp only [List.cons_append, run]
    cases step p s with
    | returned k q => exact ih (count + k) q
    | fatal m q => rfl
    | undefined => rfl

theorem run_invariant (trace : List Step) :
    ∀ (count : Nat) (p : Process),
      (∀ h : Host, Step.host_drains h ∈ trace → h.ruby_thread_has_gvl_p = true) →
      (p.postponed_jobs = [] ∨ p.postponed_jobs = [FnPtr.job_callback]) →
      ∃ (k : Nat) (q : Process),
        run trace count p = Outcome.returned (count + k) q ∧
        (q.postponed_jobs = [] ∨ q.postponed_jobs = [FnPtr.job_callback]) ∧
        k + q.postponed_jobs.length ≤ firings trace + p.postponed_jobs.length ∧
        (1 ≤ firings trace + p.postponed_jobs.length → 1 ≤ k + q.postponed_jobs.length) ∧
        q.sampling_results.length = p.sampling_results.length + k := by
  induction trace with
  | nil =>
    intro count p _ hp
    exact ⟨0, p, rfl, hp, by simp [firings], by simp [firings], rfl⟩
  | cons s rest ih =>
    intro count p hgvl hp
    have hrest : ∀ h : Host, Step.host_drains h ∈ rest → h.ruby_thread_has_gvl_p = true :=
      fun h hh => hgvl h (List.mem_cons_of_mem s hh)
    cases s with
    | timer_fires =>
      have hq : (handle_signal SIGALRM p).postponed_jobs = [FnPtr.job_callback] := by
        rw [handle_signal_eq]
        rcases hp with hp | hp <;> simp [hp]
      have hstore : (handle_signal SIGALRM p).sampling_results = p.sampling_results := by
        rw [handle_signal_eq]
      obtain ⟨k, q, hrun, hwf, hle, hge, hlen⟩ :=
        ih count (handle_signal SIGALRM p) hrest (Or.inr hq)
      refine ⟨k, q, ?_, hwf, ?_, ?_, ?_⟩
      · simpa [run, step, Outcome.bind] using hrun
      · rw [hq] at hle
        simp only [firings, List.length_singleton] at hle ⊢
        omega
      · intro _
        rw [hq] at hge
        exact hge (by simp)
      · rw [hlen, hstore]
    | host_drains h =>
      have hg : h.ruby_thread_has_gvl_p = true := hgvl h (List.mem_cons_self _ _)
      rcases hp with hp | hp
      · obtain ⟨k, q, hrun, hwf, hle, hge, hlen⟩ := ih count p hrest (Or.inl hp)
        refine ⟨k, q, ?_, hwf, ?_, ?_, hlen⟩
        · simpa [run, step, flush_nothing_pending h p hp, Outcome.bind] using hrun
        · simpa [firings] using hle
        · simpa [firings] using hge
      · obtain ⟨k, q, hrun, hwf, hle, hge, hlen⟩ := ih (count + 1)
          { p with
            sampling_results :=
              p.sampling_results ++ [Value.ary (h.thread_list.map (sample_record h))]
            postponed_jobs := [] } hrest (Or.inl rfl)
        refine ⟨1 + k, q, ?_, hwf, ?_, ?_, ?_⟩
        · simp only [run, step, flush_one_pending h p hg hp, Outcome.bind]
          rw [hrun]
          congr 1
          omega
        · simp only [firings, hp, List.length_singleton, List.length_nil] at hle ⊢
          omega
        · intro _
          omega
        · simp only [List.length_append, List.length_singleton] at hlen
          omega

theorem run_firings_only (n : Nat) :
    ∀ (count : Nat) (p : Process),
      (p.postponed_jobs = [] ∨ p.postponed_jobs = [FnPtr.job_callback]) →
      run (List.replicate (n + 1) Step.timer_fires) count p
        = Outcome.returned count { p with postponed_jobs := [FnPtr.job_callback] } := by
  induction n with
  | zero =>
    intro count p hp
    simp only [Nat.zero_add, List.replicate_one, run, step, Outcome.bind, Nat.add_zero]
    rw [handle_signal_eq]
    rcases hp with hp | hp <;> simp [hp]
  | succ n ih =>
    intro count p hp
    rw [List.replicate_succ, run]
    simp only [step, Outcome.bind, Nat.add_zero]
    have hq : (handle_signal SIGALRM p).postponed_jobs = [FnPtr.job_callback] := by
      rw [handle_signal_eq]
      rcases hp with hp | hp <;> simp [hp]
    rw [ih count _ (Or.inr hq), handle_signal_eq]

/-- C9: in the step relation of timer firings and host drains, where a
firing runs `handle_signal`, which only registers `job_callback` and leaves
at most one registration of it pending, and a drain runs the pending job
with the lock held: after `N ≥ 1` firings followed by a drain, `job_callback`
has run, and a sweep has been appended to the store, at least once and at
most `N` times. -/
theorem coalesced_job_runs_between_one_and_firings :
    (∀ (signal : Int) (p : Process),
      handle_signal signal p = (rb_postponed_job_register_one 0 FnPtr.job_callback p).2 ∧
      (handle_signal signal p).sampling_results = p.sampling_results ∧
      (handle_signal signal p).sigalrm = p.sigalrm ∧
      (handle_signal signal p).itimer_real = p.itimer_real ∧
      (handle_signal signal p).postponed_jobs
        = (if FnPtr.job_callback ∈ p.postponed_jobs then p.postponed_jobs
            else p.postponed_jobs ++ [FnPtr.job_callback]) ∧
      (handle_signal signal p).postponed_jobs.count FnPtr.job_callback
        = max 1 (p.postponed_jobs.count FnPtr.job_callback)) ∧
    (∀ (n : Nat) (p : Process) (last : Host),
      1 ≤ n →
      (p.postponed_jobs = [] ∨ p.postponed_jobs = [FnPtr.job_callback]) →
      last.ruby_thread_has_gvl_p = true →
      ∃ (k : Nat) (q : Process),
        run (List.replicate n Step.timer_fires ++ [Step.host_drains last]) 0 p
          = Outcome.returned k q ∧
        1 ≤ k ∧ k ≤ n ∧
        q.sampling_results.length = p.sampling_results.length + k ∧
        q.postponed_jobs = []) ∧
    (∀ (trace : List Step) (p : Process) (last : Host),
      1 ≤ firings trace →
      p.postponed_jobs = [] →
      (∀ h : Host, Step.host_drains h ∈ trace → h.ruby_thread_has_gvl_p = true) →
      last.ruby_thread_has_gvl_p = true →
      ∃ (k : Nat) (q : Process),
        run (trace ++ [Step.host_drains last]) 0 p = Outcome.returned k q ∧
        1 ≤ k ∧ k ≤ firings trace ∧
        q.sampling_results.length = p.sampling_results.length + k ∧
        q.postponed_jobs = []) := by
  refine ⟨?_, ?_, ?_⟩
  · intro signal p
    refine ⟨rfl, ?_, ?_, ?_, ?_, ?_⟩
    · rw [handle_signal_eq]
    · rw [handle_signal_eq]
    · rw [handle_signal_eq]
    · rw [handle_signal_eq]
    · rw [handle_signal_eq]
      by_cases hm : FnPtr.job_callback ∈ p.postponed_jobs
      · have := List.count_pos_iff.mpr hm
        simp only [hm, if_true]
        omega
      · have := List.count_eq_zero_of_not_mem hm
        simp [hm, this]
  · intro n p last hn hp hg
    obtain ⟨m, rfl⟩ : ∃ m, n = m + 1 := ⟨n - 1, by omega⟩
    refine ⟨1, { p with
        sampling_results :=
          p.sampling_results ++ [Value.ary (last.thread_list.map (sample_record last))]
        postponed_jobs := [] }, ?_, le_refl 1, hn, ?_, ?_⟩
    · rw [run_append, run_firings_only m 0 p hp]
      simp only [Outcome.bind, run, step]
      rw [flush_one_pending last _ hg rfl]
    · simp
    · rfl
  · intro trace p last hn hp hgvl hg
    obtain ⟨k, q, hrun, hwf, hle, hge, hlen⟩ := run_invariant trace 0 p hgvl (Or.inl hp)
    rw [hp] at hle hge
    simp only [List.length_nil, Nat.add_zero, Nat.zero_add] at hle hge hrun
    rcases hwf with hq | hq
    · refine ⟨k, q, ?_, ?_, ?_, hlen, hq⟩
      · rw [run_append, hrun]
        simp [Outcome.bind, run, step, flush_nothing_pending last q hq]
      · have := hge hn
        simpa [hq] using this
      · simpa [hq] using hle
    · refine ⟨k + 1, { q with
          sampling_results :=
            q.sampling_results ++ [Value.ary (last.thread_list.map (sample_record last))]
          postponed_jobs := [] }, ?_, by omega, ?_, ?_, ?_⟩
      · rw [run_append, hrun]
        simp only [Outcome.bind, run, step, flush_one_pending last q hg hq]
      · simpa [hq] using hle
      · simp [hlen]
        omega
      · rfl

theorem coalesced_job_runs_between_one_and_firings_witness :
    ∃ (k : Nat) (q : Process),
      run [Step.timer_fires, Step.host_drains scenario_host, Step.timer_fires, Step.timer_fires,
          Step.host_drains scenario_host] 0 fresh_process = Outcome.returned k q ∧
      1 ≤ k ∧ k ≤ 3 ∧
      q.sampling_results.length = fresh_process.sampling_results.length + k ∧
      q.postponed_jobs = [] :=
  coalesced_job_runs_between_one_and_firings.2.2
    [Step.timer_fires, Step.host_drains scenario_host, Step.timer_fires, Step.timer_fires]
    fresh_process scenario_host (by decide) rfl
    (by
      intro h hh
      have e : h = scenario_host := by simpa using hh
      rw [e]
      rfl)
    rfl

end Profiling
